import Mathlib

/-!
Shallow embedding of `median_filter_uint16.c` (xless repository).

The C source consists of three helpers and one entry point:
  * `bisect_left` — binary search for the leftmost insertion point;
  * `getp`        — pixel fetch with single-step mirror reflection;
  * `cmp_uint16`  — a `qsort` comparator realising ascending order;
  * `median_filter_uint16` — the scan driver.

Pixels are `uint16_t`; all values fit in `Nat` and no arithmetic on the
pixel values themselves can overflow, so sample values are modelled as
`Nat`.  Coordinates are C `int`s and are modelled as `Int` (the C casts
between `int` and `size_t` recover the signed value for the magnitudes
reachable here).  A grid is a row-major `List Nat`; the flat memory
access `src[i]` is modelled as `List.getD src i 0`, and the safety
claims talk about the computed flat index itself, via `getpIdx`.
The `while (lo < hi)` loop of `bisect_left` is embedded with explicit
fuel; the interval length `hi - lo` shrinks at every iteration, so the
initial fuel `n = hi - lo` is never exhausted and the embedding computes
exactly what the C loop computes.  `qsort` with `cmp_uint16` sorts the
window ascending; on `Nat` every correct sort produces the same list, so
it is embedded as insertion sort (`sortAsc`).
-/

namespace Xless

/-- Flat index computed by `getp` (source lines 41-47): each coordinate is
reflected by the one-step mirror rule, then the row-major index is formed. -/
def getpIdx (width height : Nat) (r c : Int) : Int :=
  let r1 := if r < 0 then -r else if r ≥ (height : Int) then 2 * (height : Int) - r - 2 else r
  let c1 := if c < 0 then -c else if c ≥ (width : Int) then 2 * (width : Int) - c - 2 else c
  r1 * (width : Int) + c1

/-- `getp` (source lines 37-48): pixel fetch with mirror padding. -/
def getp (src : List Nat) (width height : Nat) (r c : Int) : Nat :=
  src.getD (getpIdx width height r c).toNat 0

/-- Loop body of `bisect_left` (source lines 24-30), with fuel.  Each
iteration strictly shrinks `hi - lo`, so any fuel `≥ hi - lo` gives the
exact value computed by the C `while` loop. -/
def bisectGo (arr : List Nat) (val : Nat) : Nat → Nat → Nat → Nat
  | 0, lo, _ => lo
  | fuel + 1, lo, hi =>
    if lo < hi then
      let mid := (lo + hi) / 2
      if arr.getD mid 0 < val then bisectGo arr val fuel (mid + 1) hi
      else bisectGo arr val fuel lo mid
    else lo

/-- `bisect_left(arr, n, val)` (source lines 18-32). -/
def bisectLeft (arr : List Nat) (n : Nat) (val : Nat) : Nat :=
  bisectGo arr val n 0 n

/-- The removal shift of the column slide (source lines 114-116):
`pos = bisect_left(win, win_area, win[0])`, then every slot from `pos`
on is overwritten by its right neighbour; the last slot is untouched. -/
def removeStep (w : List Nat) : List Nat :=
  let n := w.length
  let pos := bisectLeft w n (w.getD 0 0)
  (List.range n).map (fun i => if pos ≤ i ∧ i + 1 < n then w.getD (i + 1) 0 else w.getD i 0)

/-- One insertion of the column slide (source lines 126-132):
`ins_pos = bisect_left(win, win_area - 1, val)`, slots above `ins_pos`
shift up by one (the last slot falls off), and `val` lands at `ins_pos`. -/
def insertStep (w : List Nat) (val : Nat) : List Nat :=
  let n := w.length
  let p := bisectLeft w (n - 1) val
  (List.range n).map (fun j =>
    if j = p then val else if p < j then w.getD (j - 1) 0 else w.getD j 0)

/-- `qsort(win, win_area, sizeof(uint16_t), cmp_uint16)`: ascending sort. -/
def sortAsc (l : List Nat) : List Nat := l.insertionSort (· ≤ ·)

/-- The `ksize × ksize` neighbourhood of `(r, c)` fetched through `getp`,
in the scan order of the build loops (source lines 90-96 and 141-148). -/
def blockAt (src : List Nat) (width height ksize : Nat) (r c : Nat) : List Nat :=
  let half := ksize / 2
  (List.range ksize).flatMap (fun (i : Nat) =>
    (List.range ksize).map (fun (j : Nat) =>
      getp src width height ((r : Int) + (i : Int) - (half : Int))
        ((c : Int) + (j : Int) - (half : Int))))

/-- The `new_col` values fetched for the slide to column `c`
(source lines 119-124): rows `r - half .. r + half` of column `c + half`. -/
def newCol (src : List Nat) (width height ksize : Nat) (r c : Nat) : List Nat :=
  let half := ksize / 2
  (List.range ksize).map (fun (i : Nat) =>
    getp src width height ((r : Int) + (i : Int) - (half : Int)) ((c : Int) + (half : Int)))

/-- One column slide (source lines 109-132): the single removal shift,
then the `ksize` insertions of the `new_col` values in fetch order. -/
def slideStep (src : List Nat) (width height ksize : Nat) (r c : Nat) (w : List Nat) : List Nat :=
  (newCol src width height ksize r c).foldl insertStep (removeStep w)

/-- The window state at the moment `dst[r*width + c]` is written: at
column 0 it is the freshly built and sorted neighbourhood of `(r, 0)`
(the initial build for `r = 0`, the per-row rebuild for `r > 0`), and
each further column applies one slide. -/
def windowAt (src : List Nat) (width height ksize r : Nat) : Nat → List Nat
  | 0 => sortAsc (blockAt src width height ksize r 0)
  | c + 1 => slideStep src width height ksize r (c + 1) (windowAt src width height ksize r c)

/-- The value written to `dst[r*width + c]` (source lines 106 and 135):
the window element at index `half*ksize + half`. -/
def outputAt (src : List Nat) (width height ksize : Nat) (r c : Nat) : Nat :=
  let half := ksize / 2
  (windowAt src width height ksize r c).getD (half * ksize + half) 0

/-- The full output grid of the odd-`ksize` path, row-major. -/
def medianFilter (src : List Nat) (width height ksize : Nat) : List Nat :=
  (List.range (height * width)).map
    (fun i => outputAt src width height ksize (i / width) (i % width))

/-- `memcpy(dst, src, n * sizeof(uint16_t))` over a caller buffer `dst0`. -/
def memcpyGrid (src dst0 : List Nat) (n : Nat) : List Nat :=
  (List.range dst0.length).map (fun i => if i < n then src.getD i 0 else dst0.getD i 0)

/-- `median_filter_uint16` (source lines 67-154) including its control
flow: the even-`ksize` copy path (lines 75-78), the silent return when
the window allocation fails (line 85, before any write to `dst`), and
the filtering path.  `dst0` is the caller-provided output buffer. -/
def runFilter (src dst0 : List Nat) (width height ksize : Nat) (allocOk : Bool) : List Nat :=
  if ksize % 2 = 0 then memcpyGrid src dst0 (width * height)
  else if allocOk = false then dst0
  else medianFilter src width height ksize

/-- Modelled from the spec: the per-axis reflection rule of §4.1
("if coordinate < 0: reflected = -coordinate; if coordinate ≥ extent:
reflected = 2*extent - coordinate - 2; otherwise unchanged"). -/
def reflectSpec (extent : Nat) (v : Int) : Int :=
  if v < 0 then -v
  else if v ≥ (extent : Int) then 2 * (extent : Int) - v - 2
  else v

/-- Row-major sample fetch at already-reflected coordinates. -/
def gridSample (src : List Nat) (width : Nat) (r c : Int) : Nat :=
  src.getD (r * (width : Int) + c).toNat 0

/-- Full-sort median oracle: sort the multiset and take the middle element. -/
def sortMedian (l : List Nat) : Nat := (sortAsc l).getD (l.length / 2) 0

/-- The flat source index of the access `(r, c)` is inside `[0, width*height)`. -/
def idxOk (width height : Nat) (p : Int × Int) : Prop :=
  0 ≤ getpIdx width height p.1 p.2 ∧ getpIdx width height p.1 p.2 < (width : Int) * (height : Int)

/-- Coordinates passed to `getp` by a window build for `(r, 0)`
(source lines 90-96 and 141-148). -/
def buildCoords (ksize r : Nat) : List (Int × Int) :=
  let half := ksize / 2
  (List.range ksize).flatMap (fun (i : Nat) =>
    (List.range ksize).map (fun (j : Nat) =>
      ((r : Int) + (i : Int) - (half : Int), (j : Int) - (half : Int))))

/-- Coordinates passed to `getp` when fetching `new_col` for the slide
to column `c` (source lines 119-124). -/
def slideCoords (ksize r c : Nat) : List (Int × Int) :=
  let half := ksize / 2
  (List.range ksize).map (fun (i : Nat) =>
    ((r : Int) + (i : Int) - (half : Int), (c : Int) + (half : Int)))

/-- Every coordinate pair passed to `getp` during one odd-`ksize` run:
the initial build, then per row the slides to columns `1 .. width-1`
and, while rows remain, the rebuild for the next row. -/
def accessedCoords (width height ksize : Nat) : List (Int × Int) :=
  buildCoords ksize 0 ++
    (List.range height).flatMap (fun r =>
      ((List.range (width - 1)).flatMap (fun c0 => slideCoords ksize r (c0 + 1))) ++
        (if r + 1 < height then buildCoords ksize (r + 1) else []))

/-- All source accesses of one run are in bounds. -/
def accessesOk (width height ksize : Nat) : Prop :=
  ∀ p ∈ accessedCoords width height ksize, idxOk width height p

/-- The indices `dr + half` at which the slide writes into the 15-slot
`new_col` scratch buffer (source line 123), as `dr` scans `-half .. half`. -/
def newColWriteIdx (ksize : Nat) : List Int :=
  let half := ksize / 2
  (List.range ksize).map (fun (i : Nat) => ((i : Int) - (half : Int)) + (half : Int))

/-- Ascending order, stated on flat reads: earlier slots never exceed later ones. -/
def SortedLE (l : List Nat) : Prop :=
  ∀ i j, i ≤ j → j < l.length → l.getD i 0 ≤ l.getD j 0

/-- The 5×4 example grid from the repository's own test driver
(also the concrete scenario of spec §8). -/
def grid54 : List Nat :=
  [10, 12, 13, 15, 17,
    9, 11, 14, 16, 18,
   20, 22, 23, 25, 27,
   19, 21, 24, 26, 28]

/-! ### Helper lemmas -/

theorem getD_map_range (n : Nat) (f : Nat → Nat) (i : Nat) :
    ((List.range n).map f).getD i 0 = if i < n then f i else 0 := by
  rcases Nat.lt_or_ge i n with h | h
  · rw [if_pos h, List.getD_eq_getElem _ _ (by simpa using h)]
    simp
  · rw [if_neg (Nat.not_lt.mpr h), List.getD_eq_default]
    simpa using h

theorem sortedLE_sortAsc (l : List Nat) : SortedLE (sortAsc l) := by
  intro i j hij hj
  rcases Nat.eq_or_lt_of_le hij with rfl | hlt
  · exact le_refl _
  · have hi : i < (sortAsc l).length := lt_trans hlt hj
    rw [List.getD_eq_getElem _ _ hi, List.getD_eq_getElem _ _ hj]
    exact (List.sorted_insertionSort (· ≤ ·) l).rel_get_of_lt hlt

theorem bisectGo_spec (arr : List Nat) (val : Nat) (n : Nat)
    (hs : ∀ i j, i ≤ j → j < n → arr.getD i 0 ≤ arr.getD j 0) :
    ∀ fuel lo hi, hi - lo ≤ fuel → lo ≤ hi → hi ≤ n →
      (∀ i, i < lo → arr.getD i 0 < val) →
      (∀ i, hi ≤ i → i < n → val ≤ arr.getD i 0) →
      (∀ i, i < bisectGo arr val fuel lo hi → arr.getD i 0 < val) ∧
        (∀ i, bisectGo arr val fuel lo hi ≤ i → i < n → val ≤ arr.getD i 0) ∧
        bisectGo arr val fuel lo hi ≤ n := by
  intro fuel
  induction fuel with
  | zero =>
    intro lo hi hfuel hlh hhn hlo hhi
    have hle : hi = lo := by omega
    subst hle
    simp only [bisectGo]
    exact ⟨hlo, fun i h1 h2 => hhi i h1 h2, by omega⟩
  | succ fuel ih =>
    intro lo hi hfuel hlh hhn hlo hhi
    by_cases hlt : lo < hi
    · have hmid1 : lo ≤ (lo + hi) / 2 := by omega
      have hmid2 : (lo + hi) / 2 < hi := by omega
      have hstep : bisectGo arr val (fuel + 1) lo hi =
          (if arr.getD ((lo + hi) / 2) 0 < val then
            bisectGo arr val fuel ((lo + hi) / 2 + 1) hi
          else bisectGo arr val fuel lo ((lo + hi) / 2)) := by
        simp only [bisectGo, if_pos hlt]
      rw [hstep]
      by_cases hv : arr.getD ((lo + hi) / 2) 0 < val
      · rw [if_pos hv]
        refine ih ((lo + hi) / 2 + 1) hi (by omega) (by omega) hhn ?_ hhi
        intro i hi'
        exact lt_of_le_of_lt (hs i ((lo + hi) / 2) (by omega) (by omega)) hv
      · rw [if_neg hv]
        refine ih lo ((lo + hi) / 2) (by omega) (by omega) (by omega) hlo ?_
        intro i h1 h2
        exact le_trans (Nat.not_lt.mp hv) (hs ((lo + hi) / 2) i h1 h2)
    · have hle : hi = lo := by omega
      subst hle
      simp only [bisectGo, lt_irrefl, if_false]
      exact ⟨hlo, fun i h1 h2 => hhi i h1 h2, by omega⟩

theorem bisectLeft_spec (arr : List Nat) (n : Nat) (val : Nat)
    (hs : ∀ i j, i ≤ j → j < n → arr.getD i 0 ≤ arr.getD j 0) :
    (∀ i, i < bisectLeft arr n val → arr.getD i 0 < val) ∧
      (∀ i, bisectLeft arr n val ≤ i → i < n → val ≤ arr.getD i 0) ∧
      bisectLeft arr n val ≤ n := by
  exact bisectGo_spec arr val n hs n 0 n (by omega) (by omega) (le_refl n)
    (fun i h => absurd h (Nat.not_lt_zero i)) (fun i h1 h2 => absurd h2 (by omega))

theorem bisectLeft_getD_zero (w : List Nat) (hw : SortedLE w) :
    bisectLeft w w.length (w.getD 0 0) = 0 := by
  obtain ⟨h1, _, _⟩ := bisectLeft_spec w w.length (w.getD 0 0) (fun i j a b => hw i j a b)
  by_contra hne
  exact absurd (h1 0 (Nat.pos_of_ne_zero hne)) (lt_irrefl _)

theorem removeStep_length (w : List Nat) : (removeStep w).length = w.length := by
  simp [removeStep]

theorem insertStep_length (w : List Nat) (v : Nat) : (insertStep w v).length = w.length := by
  simp [insertStep]

theorem foldl_insertStep_length (vs : List Nat) :
    ∀ w : List Nat, (vs.foldl insertStep w).length = w.length := by
  induction vs with
  | nil => intro w; rfl
  | cons v vs ih => intro w; rw [List.foldl_cons, ih, insertStep_length]

theorem sortAsc_length (l : List Nat) : (sortAsc l).length = l.length :=
  List.length_insertionSort _ l

theorem removeStep_sortedLE (w : List Nat) (hw : SortedLE w) : SortedLE (removeStep w) := by
  intro i j hij hj
  rw [removeStep_length] at hj
  have hpos := bisectLeft_getD_zero w hw
  simp only [removeStep, hpos, getD_map_range, Nat.zero_le, true_and]
  rw [if_pos (lt_of_le_of_lt hij hj), if_pos hj]
  by_cases hj1 : j + 1 < w.length
  · rw [if_pos (by omega : i + 1 < w.length), if_pos hj1]
    exact hw (i + 1) (j + 1) (by omega) hj1
  · rw [if_neg hj1]
    by_cases hi1 : i + 1 < w.length
    · rw [if_pos hi1]
      exact hw (i + 1) j (by omega) hj
    · rw [if_neg hi1]
      exact hw i j hij hj

theorem insertStep_sortedLE (w : List Nat) (val : Nat) (hw : SortedLE w) :
    SortedLE (insertStep w val) := by
  intro i j hij hj
  rw [insertStep_length] at hj
  obtain ⟨hA, hB, hC⟩ := bisectLeft_spec w (w.length - 1) val
    (fun a b h1 h2 => hw a b h1 (by omega))
  simp only [insertStep, getD_map_range]
  rw [if_pos (lt_of_le_of_lt hij hj), if_pos hj]
  set p := bisectLeft w (w.length - 1) val with hp
  rcases Nat.eq_or_lt_of_le hij with rfl | hlt
  · exact le_refl _
  · by_cases hjp : j = p
    · subst hjp
      rw [if_pos rfl, if_neg (by omega : i ≠ p), if_neg (by omega : ¬ p < i)]
      exact le_of_lt (hA i hlt)
    · rcases Nat.lt_or_ge p j with hpj | hjp'
      · rw [if_neg hjp, if_pos hpj]
        by_cases hip : i = p
        · rw [if_pos hip]
          exact hB (j - 1) (by omega) (by omega)
        · rcases Nat.lt_or_ge p i with hpi | hip'
          · rw [if_neg hip, if_pos hpi]
            exact hw (i - 1) (j - 1) (by omega) (by omega)
          · rw [if_neg hip, if_neg (by omega : ¬ p < i)]
            exact le_trans (le_of_lt (hA i (by omega))) (hB (j - 1) (by omega) (by omega))
      · have hjp2 : j < p := by omega
        rw [if_neg hjp, if_neg (by omega : ¬ p < j), if_neg (by omega : i ≠ p),
          if_neg (by omega : ¬ p < i)]
        exact hw i j hij hj

theorem foldl_insertStep_sortedLE (vs : List Nat) :
    ∀ w : List Nat, SortedLE w → SortedLE (vs.foldl insertStep w) := by
  induction vs with
  | nil => intro w hw; exact hw
  | cons v vs ih => intro w hw; exact ih _ (insertStep_sortedLE w v hw)

theorem slideStep_sortedLE (src : List Nat) (width height ksize r c : Nat) (w : List Nat)
    (hw : SortedLE w) : SortedLE (slideStep src width height ksize r c w) :=
  foldl_insertStep_sortedLE _ _ (removeStep_sortedLE w hw)

theorem length_flatMap_const {α β : Type} (l : List α) (f : α → List β) (k : Nat)
    (h : ∀ a ∈ l, (f a).length = k) : (l.flatMap f).length = l.length * k := by
  induction l with
  | nil => simp
  | cons a l ih =>
    rw [List.flatMap_cons, List.length_append, h a (by simp),
      ih (fun b hb => h b (by simp [hb])), List.length_cons, Nat.succ_mul, Nat.add_comm]

theorem blockAt_length (src : List Nat) (width height ksize r c : Nat) :
    (blockAt src width height ksize r c).length = ksize * ksize := by
  rw [blockAt]
  rw [length_flatMap_const _ _ ksize (fun a _ => by simp)]
  simp

theorem newCol_length (src : List Nat) (width height ksize r c : Nat) :
    (newCol src width height ksize r c).length = ksize := by
  simp only [newCol, List.length_map, List.length_range]

theorem windowAt_length (src : List Nat) (width height ksize r : Nat) :
    ∀ c, (windowAt src width height ksize r c).length = ksize * ksize
  | 0 => by
    show (sortAsc (blockAt src width height ksize r 0)).length = ksize * ksize
    rw [sortAsc_length, blockAt_length]
  | c + 1 => by
    show (slideStep src width height ksize r (c + 1)
      (windowAt src width height ksize r c)).length = ksize * ksize
    rw [slideStep, foldl_insertStep_length, removeStep_length,
      windowAt_length src width height ksize r c]

theorem range_one : List.range 1 = [0] := rfl

theorem getpIdx_nat_inRange (width height r c : Nat) (hr : r < height) (hc : c < width) :
    getpIdx width height (r : Int) (c : Int) = ((r * width + c : Nat) : Int) := by
  simp only [getpIdx]
  rw [if_neg (by omega), if_neg (by omega), if_neg (by omega), if_neg (by omega)]
  push_cast
  ring

theorem getp_nat_inRange (src : List Nat) (width height r c : Nat)
    (hr : r < height) (hc : c < width) :
    getp src width height (r : Int) (c : Int) = src.getD (r * width + c) 0 := by
  rw [getp, getpIdx_nat_inRange width height r c hr hc, Int.toNat_natCast]

theorem sortedLE_singleton (x : Nat) : SortedLE [x] := by
  intro i j hij hj
  simp only [List.length_singleton] at hj
  have hij0 : i = 0 ∧ j = 0 := by omega
  rw [hij0.1, hij0.2]

theorem removeStep_singleton (x : Nat) : removeStep [x] = [x] := by
  have h0 := bisectLeft_getD_zero [x] (sortedLE_singleton x)
  simp only [List.length_singleton, List.getD] at h0
  simp [removeStep, List.getD, h0, range_one]

theorem insertStep_singleton (x v : Nat) : insertStep [x] v = [v] := by
  simp [insertStep, bisectLeft, bisectGo, range_one]

theorem blockAt_one (src : List Nat) (width height r c : Nat) :
    blockAt src width height 1 r c = [getp src width height (r : Int) (c : Int)] := by
  simp [blockAt, range_one]

theorem newCol_one (src : List Nat) (width height r c : Nat) :
    newCol src width height 1 r c = [getp src width height (r : Int) (c : Int)] := by
  simp [newCol, range_one]

theorem windowAt_one (src : List Nat) (width height r : Nat) :
    ∀ c, windowAt src width height 1 r c = [getp src width height (r : Int) (c : Int)]
  | 0 => by
    show sortAsc (blockAt src width height 1 r 0) = _
    rw [blockAt_one]
    rfl
  | c + 1 => by
    show slideStep src width height 1 r (c + 1) (windowAt src width height 1 r c) = _
    rw [windowAt_one src width height r c, slideStep, newCol_one, removeStep_singleton]
    simp [insertStep_singleton]

theorem map_getD_range_self (l : List Nat) :
    (List.range l.length).map (fun i => l.getD i 0) = l := by
  apply List.ext_getElem
  · simp
  · intro i h1 h2
    simp only [List.getElem_map, List.getElem_range]
    exact List.getD_eq_getElem l 0 h2

theorem getpIdx_bounds (width height half : Nat) (ri ci : Int)
    (hw : half < width) (hh : half < height)
    (hr1 : -(half : Int) ≤ ri) (hr2 : ri ≤ (height : Int) - 1 + half)
    (hc1 : -(half : Int) ≤ ci) (hc2 : ci ≤ (width : Int) - 1 + half) :
    0 ≤ getpIdx width height ri ci ∧
      getpIdx width height ri ci < (width : Int) * (height : Int) := by
  simp only [getpIdx]
  set r1 := if ri < 0 then -ri else
    if ri ≥ (height : Int) then 2 * (height : Int) - ri - 2 else ri with hr1def
  set c1 := if ci < 0 then -ci else
    if ci ≥ (width : Int) then 2 * (width : Int) - ci - 2 else ci with hc1def
  have hr : 0 ≤ r1 ∧ r1 < (height : Int) := by
    rw [hr1def]; split_ifs <;> omega
  have hc : 0 ≤ c1 ∧ c1 < (width : Int) := by
    rw [hc1def]; split_ifs <;> omega
  constructor
  · exact add_nonneg (mul_nonneg hr.1 (by positivity)) hc.1
  · have hmul : r1 * (width : Int) ≤ ((height : Int) - 1) * (width : Int) :=
      mul_le_mul_of_nonneg_right (by omega) (by positivity)
    nlinarith [hr.1, hr.2, hc.1, hc.2]

theorem mem_buildCoords {p : Int × Int} {ksize r : Nat} (hp : p ∈ buildCoords ksize r) :
    ∃ i j, i < ksize ∧ j < ksize ∧
      p = ((r : Int) + (i : Int) - ((ksize / 2 : Nat) : Int),
        (j : Int) - ((ksize / 2 : Nat) : Int)) := by
  simp only [buildCoords, List.mem_flatMap, List.mem_map, List.mem_range] at hp
  obtain ⟨i, hi, j, hj, hpe⟩ := hp
  exact ⟨i, j, hi, hj, hpe.symm⟩

theorem mem_slideCoords {p : Int × Int} {ksize r c : Nat} (hp : p ∈ slideCoords ksize r c) :
    ∃ i, i < ksize ∧
      p = ((r : Int) + (i : Int) - ((ksize / 2 : Nat) : Int),
        (c : Int) + ((ksize / 2 : Nat) : Int)) := by
  simp only [slideCoords, List.mem_map, List.mem_range] at hp
  obtain ⟨i, hi, hpe⟩ := hp
  exact ⟨i, hi, hpe.symm⟩

theorem buildCoords_ok (width height ksize r : Nat)
    (hw : ksize / 2 < width) (hh : ksize / 2 < height) (hr : r < height)
    {p : Int × Int} (hp : p ∈ buildCoords ksize r) : idxOk width height p := by
  obtain ⟨i, j, hi, hj, rfl⟩ := mem_buildCoords hp
  exact getpIdx_bounds width height (ksize / 2) _ _ hw hh
    (by omega) (by omega) (by omega) (by omega)

theorem slideCoords_ok (width height ksize r c : Nat)
    (hw : ksize / 2 < width) (hh : ksize / 2 < height) (hr : r < height) (hc : c < width)
    {p : Int × Int} (hp : p ∈ slideCoords ksize r c) : idxOk width height p := by
  obtain ⟨i, hi, rfl⟩ := mem_slideCoords hp
  exact getpIdx_bounds width height (ksize / 2) _ _ hw hh
    (by omega) (by omega) (by omega) (by omega)

theorem accessesOk_of_half_lt (width height ksize : Nat)
    (hw : ksize / 2 < width) (hh : ksize / 2 < height) :
    accessesOk width height ksize := by
  intro p hp
  simp only [accessedCoords, List.mem_append, List.mem_flatMap, List.mem_range] at hp
  rcases hp with hp | ⟨r, hr, hp⟩
  · exact buildCoords_ok width height ksize 0 hw hh (by omega) hp
  · rcases hp with hp | hp
    · obtain ⟨c0, hc0, hp⟩ := hp
      exact slideCoords_ok width height ksize r (c0 + 1) hw hh hr (by omega) hp
    · by_cases hnext : r + 1 < height
      · rw [if_pos hnext] at hp
        exact buildCoords_ok width height ksize (r + 1) hw hh hnext hp
      · rw [if_neg hnext] at hp
        exact absurd hp (List.not_mem_nil p)

instance idxOkDecidable (width height : Nat) (p : Int × Int) : Decidable (idxOk width height p) :=
  inferInstanceAs (Decidable (_ ∧ _))

instance accessesOkDecidable (width height ksize : Nat) :
    Decidable (accessesOk width height ksize) :=
  inferInstanceAs (Decidable (∀ p ∈ accessedCoords width height ksize, idxOk width height p))

/-! ### Claims -/

/-- C1: the claim states that at every interior pixel the output equals the
full-sort median of the `ksize × ksize` block.  The code fails this: on the
repository's own 5×4 test grid with `ksize = 3`, at the interior pixel
`(r, c) = (1, 1)` the filter writes 12 while the full-sort median of the
3×3 block is 13.  The slide update (one removal plus `ksize` insertions
that drop the last slot) does not keep the geometric neighbourhood. -/
theorem c1_interior_divergence :
    outputAt grid54 5 4 3 1 1 = 12 ∧ sortMedian (blockAt grid54 5 4 3 1 1) = 13 ∧
      outputAt grid54 5 4 3 1 1 ≠ sortMedian (blockAt grid54 5 4 3 1 1) := by
  decide

/-- C2: the claim states that a column slide removes the `ksize` smallest
window elements and inserts the `ksize` new-column values.  The code
performs the removal shift once, not `ksize` times, and each insertion
after the first drops the last (largest) slot, so the resulting window
multiset differs from the claimed one: shown here on the repository's 5×4
test grid at `r = 1`, slide to `c = 1` (windows compared in sorted form;
the previous window is already ascending, so dropping its first 3 elements
removes its 3 smallest). -/
theorem c2_slide_divergence :
    windowAt grid54 5 4 3 1 0 = [9, 10, 11, 11, 12, 12, 20, 22, 22] ∧
      sortAsc (windowAt grid54 5 4 3 1 1) = [10, 11, 11, 12, 12, 13, 14, 20, 23] ∧
      sortAsc ((windowAt grid54 5 4 3 1 0).drop 3 ++ newCol grid54 5 4 3 1 1) =
        [11, 12, 12, 13, 14, 20, 22, 22, 23] ∧
      sortAsc (windowAt grid54 5 4 3 1 1) ≠
        sortAsc ((windowAt grid54 5 4 3 1 0).drop 3 ++ newCol grid54 5 4 3 1 1) := by
  decide

/-- C3: at column 0 of every row the window is the freshly built, sorted
neighbourhood of `(r, 0)`, the written value is its element at index
`half*ksize + half`, and for odd `ksize` that index is the middle index
`ksize² / 2`, so the output equals the full-sort median of the
mirror-reflected neighbourhood. -/
theorem c3_column0_full_sort_median (src : List Nat) (width height ksize r : Nat)
    (hk : ksize % 2 = 1) (hw : 0 < width) (hh : 0 < height) (hr : r < height) :
    outputAt src width height ksize r 0 = sortMedian (blockAt src width height ksize r 0) ∧
      ksize / 2 * ksize + ksize / 2 = ksize * ksize / 2 := by
  obtain ⟨t, rfl⟩ : ∃ t, ksize = 2 * t + 1 := ⟨ksize / 2, by omega⟩
  have h1 : (2 * t + 1) / 2 = t := by omega
  have h2 : (2 * t + 1) * (2 * t + 1) = 2 * (2 * (t * t) + 2 * t) + 1 := by ring
  have h3 : t * (2 * t + 1) = 2 * (t * t) + t := by ring
  have harith : (2 * t + 1) / 2 * (2 * t + 1) + (2 * t + 1) / 2 =
      (2 * t + 1) * (2 * t + 1) / 2 := by
    rw [h1, h2]
    omega
  refine ⟨?_, harith⟩
  have hlen : (blockAt src width height (2 * t + 1) r 0).length = (2 * t + 1) * (2 * t + 1) :=
    blockAt_length src width height (2 * t + 1) r 0
  show (windowAt src width height (2 * t + 1) r 0).getD
      ((2 * t + 1) / 2 * (2 * t + 1) + (2 * t + 1) / 2) 0 =
    (sortAsc (blockAt src width height (2 * t + 1) r 0)).getD
      ((blockAt src width height (2 * t + 1) r 0).length / 2) 0
  rw [hlen, ← harith]
  rfl

/-- C3 witness: the theorem applied to the repository's 5×4 test grid at row 1. -/
theorem c3_witness :
    outputAt grid54 5 4 3 1 0 = sortMedian (blockAt grid54 5 4 3 1 0) ∧
      3 / 2 * 3 + 3 / 2 = 3 * 3 / 2 :=
  c3_column0_full_sort_median grid54 5 4 3 1 (by decide) (by decide) (by decide) (by decide)

/-- C4: `getp` returns the grid sample at the coordinates obtained by
applying the spec's per-axis reflection rule (`reflectSpec`, written from
the spec's words) to each axis independently. -/
theorem c4_getp_reflection (src : List Nat) (width height : Nat) (r c : Int) :
    getp src width height r c =
      gridSample src width (reflectSpec height r) (reflectSpec width c) := rfl

/-- C5: during an odd-`ksize` run the window is in ascending order at every
point where a median is read: at column 0 (right after the initial or
per-row rebuild sort) and after every column slide. -/
theorem c5_window_sorted (src : List Nat) (width height ksize : Nat)
    (hk : ksize % 2 = 1) (r c : Nat) :
    SortedLE (windowAt src width height ksize r c) := by
  induction c with
  | zero => exact sortedLE_sortAsc _
  | succ c ih => exact slideStep_sortedLE src width height ksize r (c + 1) _ ih

/-- C5 witness: the theorem applied to the 5×4 test grid at `(r, c) = (1, 2)`. -/
theorem c5_witness : SortedLE (windowAt grid54 5 4 3 1 2) :=
  c5_window_sorted grid54 5 4 3 (by decide) 1 2

/-- C6: for even `ksize` the filter copies the input to the output
unchanged and returns, on any allocation outcome. -/
theorem c6_even_identity (src dst0 : List Nat) (width height ksize : Nat) (allocOk : Bool)
    (he : ksize % 2 = 0) (hs : src.length = width * height)
    (hd : dst0.length = width * height) :
    runFilter src dst0 width height ksize allocOk = src := by
  simp only [runFilter, memcpyGrid]
  rw [if_pos he, hd]
  have hcong : ∀ i ∈ List.range (width * height),
      (if i < width * height then src.getD i 0 else dst0.getD i 0) = src.getD i 0 := by
    intro i hi
    rw [if_pos (List.mem_range.mp hi)]
  rw [List.map_congr_left hcong, ← hs, map_getD_range_self]

/-- C6 witness: a 2×2 grid with `ksize = 2` passes through unchanged. -/
theorem c6_witness : runFilter [1, 2, 3, 4] [9, 9, 9, 9] 2 2 2 true = [1, 2, 3, 4] :=
  c6_even_identity [1, 2, 3, 4] [9, 9, 9, 9] 2 2 2 true rfl rfl rfl

/-- C7: with `ksize = 1` the filter is the identity: every output cell
receives the input value at the same position. -/
theorem c7_ksize1_identity (src : List Nat) (width height : Nat)
    (hw : 0 < width) (hh : 0 < height) (hs : src.length = width * height) :
    medianFilter src width height 1 = src := by
  have key : ∀ i ∈ List.range (height * width),
      outputAt src width height 1 (i / width) (i % width) = src.getD i 0 := by
    intro i hi
    have hi' : i < height * width := List.mem_range.mp hi
    have h1 : i / width < height := (Nat.div_lt_iff_lt_mul hw).mpr hi'
    have h2 : i % width < width := Nat.mod_lt _ hw
    show (windowAt src width height 1 (i / width) (i % width)).getD (1 / 2 * 1 + 1 / 2) 0 = _
    rw [windowAt_one]
    show getp src width height ((i / width : Nat) : Int) ((i % width : Nat) : Int) = _
    rw [getp_nat_inRange src width height _ _ h1 h2]
    congr 1
    rw [Nat.mul_comm (i / width) width]
    exact Nat.div_add_mod i width
  simp only [medianFilter]
  rw [List.map_congr_left key,
    show height * width = src.length by rw [hs, Nat.mul_comm], map_getD_range_self]

/-- C7 witness: a 3×2 grid with `ksize = 1` passes through unchanged. -/
theorem c7_witness : medianFilter [3, 1, 4, 1, 5, 9] 3 2 1 = [3, 1, 4, 1, 5, 9] :=
  c7_ksize1_identity [3, 1, 4, 1, 5, 9] 3 2 (by decide) (by decide) rfl

/-- C8: under the safety preconditions (odd `ksize ≤ 15`, `ksize/2 < width`,
`ksize/2 < height`) every source access of a run is inside
`[0, width*height)`, every write into the 15-slot `new_col` buffer is at an
index in `[0, 15)` and `[0, ksize)`, the median read is below `ksize²`, and
the window always holds exactly `ksize²` slots. -/
theorem c8_memory_safety (src : List Nat) (width height ksize r c : Nat)
    (hk : ksize % 2 = 1) (h15 : ksize ≤ 15)
    (hw : ksize / 2 < width) (hh : ksize / 2 < height) :
    accessesOk width height ksize ∧
      (∀ v ∈ newColWriteIdx ksize, 0 ≤ v ∧ v < 15 ∧ v < (ksize : Int)) ∧
      ksize / 2 * ksize + ksize / 2 < ksize * ksize ∧
      (windowAt src width height ksize r c).length = ksize * ksize := by
  refine ⟨accessesOk_of_half_lt width height ksize hw hh, ?_, ?_,
    windowAt_length src width height ksize r c⟩
  · intro v hv
    simp only [newColWriteIdx, List.mem_map, List.mem_range] at hv
    obtain ⟨i, hi, rfl⟩ := hv
    omega
  · obtain ⟨t, rfl⟩ : ∃ t, ksize = 2 * t + 1 := ⟨ksize / 2, by omega⟩
    have h1 : (2 * t + 1) / 2 = t := by omega
    have h2 : (2 * t + 1) * (2 * t + 1) = 4 * (t * t) + 4 * t + 1 := by ring
    have h3 : t * (2 * t + 1) = 2 * (t * t) + t := by ring
    rw [h1]
    omega

/-- C8 witness: the theorem applied at `width = height = 5`, `ksize = 3`. -/
theorem c8_witness :
    accessesOk 5 5 3 ∧
      (∀ v ∈ newColWriteIdx 3, 0 ≤ v ∧ v < 15 ∧ v < ((3 : Nat) : Int)) ∧
      3 / 2 * 3 + 3 / 2 < 3 * 3 ∧
      (windowAt [] 5 5 3 2 2).length = 3 * 3 :=
  c8_memory_safety [] 5 5 3 2 2 (by decide) (by decide) (by decide) (by decide)

/-- C9: the claim asserts that degenerate 1×1 and 1×N grids are safe for
every `ksize` up to the grid extent.  This fails: on a 1×3 grid with
`ksize = 3` (`ksize` equals the horizontal extent) the build of the first
window passes row −1 to `getp`; one-step reflection maps it to row 1,
which is still outside the single-row grid, so the computed flat index
leaves `[0, width*height)`. -/
theorem c9_counterexample : ¬ accessesOk 3 1 3 := by decide

/-- C9 amended: on degenerate 1×1 and 1×N grids (indeed on every non-empty
grid) all source accesses are in bounds when `ksize = 1`; the original
guarantee does not extend to larger odd `ksize` on a height-1 grid. -/
theorem c9_amended_ksize1_safe (width height : Nat) (hw : 0 < width) (hh : 0 < height) :
    accessesOk width height 1 :=
  accessesOk_of_half_lt width height 1 (by omega) (by omega)

/-- C9 amended witness: a 1×4 grid with `ksize = 1` is access-safe. -/
theorem c9_amended_witness : accessesOk 4 1 1 :=
  c9_amended_ksize1_safe 4 1 (by decide) (by decide)

/-- C10: when the window allocation fails on the odd-`ksize` path, the
filter returns silently and the caller's output buffer is returned exactly
as pre-populated (the allocation precedes every output write). -/
theorem c10_alloc_failure (src dst0 : List Nat) (width height ksize : Nat)
    (hk : ksize % 2 = 1) : runFilter src dst0 width height ksize false = dst0 := by
  have hne : ¬ ksize % 2 = 0 := by omega
  simp [runFilter, hne]

/-- C10 witness: allocation failure with `ksize = 3` leaves the caller's
buffer untouched. -/
theorem c10_witness : runFilter [1, 2] [7, 8] 2 1 3 false = [7, 8] :=
  c10_alloc_failure [1, 2] [7, 8] 2 1 3 (by decide)

end Xless
